import Mathlib

/-!
Verification of the Simple Sokoban core against its specification.

The definitions below are shallow embeddings of functions from
`src/simplesok.c` (C strings become `List Char`, a possibly-NULL string
becomes `Option (List Char)`).  The puzzle state machine lives in
`sok_core.c`, which is not part of the available sources; the state-machine
definitions are modelled from the specification and are marked as such.
-/

/-- A decimal digit test, as the C comparisons `c >= '0' && c <= '9'`. -/
def isDigitC (c : Char) : Bool := '0' ≤ c && c ≤ '9'

/-- The numeric value of a digit character, as the C expression `c - '0'`. -/
def digitVal (c : Char) : Nat := c.toNat - '0'.toNat

/-- Direction symbols accepted by `isLegalSokoSolution` and the replay loop. -/
def isDirC (c : Char) : Bool :=
  c == 'u' || c == 'U' || c == 'r' || c == 'R' ||
  c == 'd' || c == 'D' || c == 'l' || c == 'L'

/-- Worker of `unRLE` (src/simplesok.c, `unRLE`): walks the string keeping the
pending repeat count `rlecnt`; a digit overwrites the count, any other
character is emitted `rlecnt` times and the count falls back to 1. -/
def unRLEaux : List Char → Nat → List Char
  | [], _ => []
  | c :: rest, n =>
    if isDigitC c then unRLEaux rest (digitVal c)
    else List.replicate n c ++ unRLEaux rest 1

/-- `unRLE` from src/simplesok.c: decompress a run-length-encoded sokoban
string; the pending repeat count starts at 1. -/
def unRLE (xsb : List Char) : List Char := unRLEaux xsb 1

/-- Worker of `isLegalSokoSolution` (src/simplesok.c): a digit is tolerated
only when followed by at least one more character, a direction symbol is
accepted, the end of the string accepts, anything else rejects. -/
def isLegalAux : List Char → Bool
  | [] => true
  | c :: rest =>
    if isDigitC c then
      match rest with
      | [] => false
      | _ :: _ => isLegalAux rest
    else if isDirC c then isLegalAux rest
    else false

/-- `isLegalSokoSolution` from src/simplesok.c: returns false for a NULL
pointer (`none`) and for a string of length < 1, otherwise scans the
characters as in `isLegalAux`. -/
def isLegalSokoSolution : Option (List Char) → Bool
  | none => false
  | some s => if s.length < 1 then false else isLegalAux s

/-- C1: decoding the run-length-encoded solution string "3u2r" with unRLE
yields exactly "uuurr"; in general a decimal digit sets the repeat count for
the next non-digit symbol, which is emitted that many times, and a symbol
without a preceding digit is emitted once. -/
theorem unRLE_digit_repeats :
    unRLE ['3', 'u', '2', 'r'] = ['u', 'u', 'u', 'r', 'r'] ∧
    (∀ (d c : Char) (s : List Char), isDigitC d = true → isDigitC c = false →
      unRLE (d :: c :: s) = List.replicate (digitVal d) c ++ unRLE s) ∧
    (∀ (c : Char) (s : List Char), isDigitC c = false →
      unRLE (c :: s) = c :: unRLE s) := by
  refine ⟨by decide, ?_, ?_⟩
  · intro d c s hd hc
    simp [unRLE, unRLEaux, hd, hc]
  · intro c s hc
    simp [unRLE, unRLEaux, hc]

theorem unRLE_digit_repeats_witness :
    unRLE ['3', 'u'] = List.replicate (digitVal '3') 'u' ++ unRLE [] ∧
    unRLE ['r'] = 'r' :: unRLE [] :=
  ⟨unRLE_digit_repeats.2.1 '3' 'u' [] (by decide) (by decide),
   unRLE_digit_repeats.2.2 'r' [] (by decide)⟩

/-- C3: validating the solution text "3" (a single digit with nothing
following it) fails: isLegalSokoSolution returns 0 on it. -/
theorem isLegal_rejects_trailing_digit :
    isLegalSokoSolution (some ['3']) = false := by decide

/-- C9: isLegalSokoSolution rejects the degenerate inputs at the public
interface: it returns 0 for a NULL pointer and for the empty string, so a
legal solution has at least one character. -/
theorem isLegal_degenerate :
    isLegalSokoSolution none = false ∧
    isLegalSokoSolution (some []) = false ∧
    ∀ s : List Char, isLegalSokoSolution (some s) = true → 1 ≤ s.length := by
  refine ⟨rfl, by decide, ?_⟩
  intro s h
  cases s with
  | nil => simp [isLegalSokoSolution] at h
  | cons c rest => simp

theorem isLegal_degenerate_witness : 1 ≤ (['u'] : List Char).length :=
  isLegal_degenerate.2.2 ['u'] (by decide)

/-- C10: in unRLE a repeat count is taken from a single digit only and each
digit overwrites the pending count rather than extending it: "12u" decodes to
"uu", "0u" decodes to the empty string, a run of consecutive digits behaves
as if only the last digit were present, and the pending count is irrelevant
when the next character is a digit. -/
theorem unRLE_digit_overwrites :
    unRLE ['1', '2', 'u'] = ['u', 'u'] ∧
    unRLE ['0', 'u'] = [] ∧
    (∀ (d e : Char) (s : List Char), isDigitC d = true → isDigitC e = true →
      unRLE (d :: e :: s) = unRLE (e :: s)) ∧
    (∀ (d : Char) (s : List Char) (n m : Nat), isDigitC d = true →
      unRLEaux (d :: s) n = unRLEaux (d :: s) m) := by
  refine ⟨by decide, by decide, ?_, ?_⟩
  · intro d e s hd he
    simp [unRLE, unRLEaux, hd, he]
  · intro d s n m hd
    simp [unRLEaux, hd]

theorem unRLE_digit_overwrites_witness :
    unRLE ['1', '2', 'u'] = unRLE ['2', 'u'] ∧
    unRLEaux ['3', 'u'] 5 = unRLEaux ['3', 'u'] 7 :=
  ⟨unRLE_digit_overwrites.2.2.1 '1' '2' ['u'] (by decide) (by decide),
   unRLE_digit_overwrites.2.2.2 '3' ['u'] 5 7 (by decide)⟩

/-- A direction symbol is one of eight concrete characters. -/
lemma isDirC_cases (c : Char) (h : isDirC c = true) :
    c = 'u' ∨ c = 'U' ∨ c = 'r' ∨ c = 'R' ∨
    c = 'd' ∨ c = 'D' ∨ c = 'l' ∨ c = 'L' := by
  simp only [isDirC, Bool.or_eq_true, beq_iff_eq] at h
  tauto

/-- A direction symbol is not a digit. -/
lemma isDirC_not_digit (c : Char) (h : isDirC c = true) : isDigitC c = false := by
  rcases isDirC_cases c h with h | h | h | h | h | h | h | h <;> subst h <;> decide

/-- Characterization of the scanning loop of isLegalSokoSolution: it accepts
exactly the strings whose characters are all digits or direction symbols and
which do not end in a digit. -/
lemma isLegalAux_iff (s : List Char) :
    isLegalAux s = true ↔
      ((∀ c ∈ s, isDigitC c = true ∨ isDirC c = true) ∧
       ∀ c, s.getLast? = some c → isDigitC c = false) := by
  induction s with
  | nil => simp [isLegalAux]
  | cons c rest ih =>
    cases hd : isDigitC c
    · cases hr : isDirC c
      · simp only [isLegalAux, hd, hr, if_false, Bool.false_eq_true, false_iff]
        intro hcontra
        have := hcontra.1 c (List.mem_cons_self c rest)
        rw [hd, hr] at this
        simp at this
      · cases rest with
        | nil => simp [isLegalAux, hd, hr]
        | cons r rs =>
          rw [show isLegalAux (c :: r :: rs) = isLegalAux (r :: rs) from by
            simp [isLegalAux, hd, hr]]
          rw [ih]
          simp [List.getLast?_cons_cons, List.forall_mem_cons, hr]
    · cases rest with
      | nil =>
        rw [show isLegalAux [c] = false from by simp [isLegalAux, hd]]
        simp only [Bool.false_eq_true, false_iff]
        rintro ⟨_, h2⟩
        have := h2 c rfl
        rw [hd] at this
        simp at this
      | cons r rs =>
        rw [show isLegalAux (c :: r :: rs) = isLegalAux (r :: rs) from by
          simp [isLegalAux, hd]]
        rw [ih]
        simp [List.getLast?_cons_cons, List.forall_mem_cons, hd]

/-- C2 counterexample: in "33u" the first digit is immediately followed by
another digit, not by a direction symbol, yet isLegalSokoSolution accepts the
string. -/
theorem isLegal_accepts_digit_digit :
    isLegalSokoSolution (some ['3', '3', 'u']) = true ∧
    isDigitC '3' = true ∧ isDirC '3' = false := by decide

/-- C2 (amended): isLegalSokoSolution accepts exactly the nonempty strings
whose characters are all digits or direction symbols and whose last character
is not a digit; a digit need only be followed by some further character, not
necessarily a direction symbol. -/
theorem isLegalSokoSolution_characterization (s : List Char) :
    isLegalSokoSolution (some s) = true ↔
      (s ≠ [] ∧ (∀ c ∈ s, isDigitC c = true ∨ isDirC c = true) ∧
       ∀ c, s.getLast? = some c → isDigitC c = false) := by
  cases s with
  | nil => simp [isLegalSokoSolution]
  | cons c rest =>
    rw [show isLegalSokoSolution (some (c :: rest)) = isLegalAux (c :: rest) by
      simp [isLegalSokoSolution]]
    rw [isLegalAux_iff]
    simp

theorem isLegalSokoSolution_characterization_witness :
    isLegalSokoSolution (some ['3', 'u']) = true :=
  (isLegalSokoSolution_characterization ['3', 'u']).mpr
    ⟨by decide, by decide, by decide⟩

/-- The four move directions of the engine (`enum SOKMOVE`). -/
inductive SOKMOVE
  | up
  | right
  | down
  | left
deriving DecidableEq

/-- The replay switch of the main loop (src/simplesok.c, `main`, the
`playsource` dispatch): maps a solution character to the move it triggers;
any other character triggers no move. -/
def playChar2move : Char → Option SOKMOVE
  | 'u' | 'U' => some SOKMOVE.up
  | 'r' | 'R' => some SOKMOVE.right
  | 'd' | 'D' => some SOKMOVE.down
  | 'l' | 'L' => some SOKMOVE.left
  | _ => none

/-- The sequence of moves a solution string replays to: the string is first
expanded with unRLE, then each character that maps to a direction produces
one move. -/
def replayMoves (s : List Char) : List SOKMOVE :=
  (unRLE s).filterMap playChar2move

/-- Swaps the case of a direction symbol, leaving any other character
unchanged. -/
def caseSwapDir : Char → Char
  | 'u' => 'U'
  | 'U' => 'u'
  | 'r' => 'R'
  | 'R' => 'r'
  | 'd' => 'D'
  | 'D' => 'd'
  | 'l' => 'L'
  | 'L' => 'l'
  | c => c

/-- Case-swapping a direction symbol keeps it a direction symbol, keeps it a
non-digit, and does not change the move it maps to. -/
lemma caseSwapDir_props (c : Char) (h : isDirC c = true) :
    isDirC (caseSwapDir c) = true ∧ isDigitC (caseSwapDir c) = false ∧
    playChar2move (caseSwapDir c) = playChar2move c := by
  rcases isDirC_cases c h with h | h | h | h | h | h | h | h <;> subst h <;>
    exact ⟨by decide, by decide, by decide⟩

/-- Replacing one non-digit, non-direction-changing character by another in
the scanned string does not change the verdict of the scanning loop. -/
lemma isLegalAux_subst (x y : Char) (hx : isDirC x = true) (hy : isDirC y = true) :
    ∀ pre post : List Char,
      isLegalAux (pre ++ x :: post) = isLegalAux (pre ++ y :: post) := by
  intro pre
  induction pre with
  | nil =>
    intro post
    simp [isLegalAux, isDirC_not_digit x hx, isDirC_not_digit y hy, hx, hy]
  | cons p pre ih =>
    intro post
    simp only [List.cons_append]
    cases hp : isDigitC p
    · cases hq : isDirC p
      · simp [isLegalAux, hp, hq]
      · rw [show isLegalAux (p :: (pre ++ x :: post)) = isLegalAux (pre ++ x :: post)
          from by simp [isLegalAux, hp, hq]]
        rw [show isLegalAux (p :: (pre ++ y :: post)) = isLegalAux (pre ++ y :: post)
          from by simp [isLegalAux, hp, hq]]
        exact ih post
    · cases pre with
      | nil =>
        simp only [List.nil_append]
        rw [show isLegalAux (p :: x :: post) = isLegalAux (x :: post) from by
          simp [isLegalAux, hp]]
        rw [show isLegalAux (p :: y :: post) = isLegalAux (y :: post) from by
          simp [isLegalAux, hp]]
        exact ih post
      | cons q qs =>
        simp only [List.cons_append]
        rw [show isLegalAux (p :: q :: (qs ++ x :: post))
            = isLegalAux (q :: (qs ++ x :: post)) from by simp [isLegalAux, hp]]
        rw [show isLegalAux (p :: q :: (qs ++ y :: post))
            = isLegalAux (q :: (qs ++ y :: post)) from by simp [isLegalAux, hp]]
        simpa only [List.cons_append] using ih post

/-- filterMap over a replicated element whose image is none yields nothing. -/
lemma filterMap_replicate_none {α β : Type} (f : α → Option β) (a : α)
    (h : f a = none) : ∀ n, (List.replicate n a).filterMap f = [] := by
  intro n
  induction n with
  | zero => rfl
  | succ n ih => simp [List.replicate_succ, List.filterMap_cons, h, ih]

/-- filterMap over a replicated element whose image is some b replicates b. -/
lemma filterMap_replicate_some {α β : Type} (f : α → Option β) (a : α) (b : β)
    (h : f a = some b) : ∀ n,
      (List.replicate n a).filterMap f = List.replicate n b := by
  intro n
  induction n with
  | zero => rfl
  | succ n ih => simp [List.replicate_succ, List.filterMap_cons, h, ih]

/-- Replacing one non-digit character by another non-digit character mapping
to the same move leaves the replayed move sequence unchanged, whatever the
pending repeat count. -/
lemma replay_subst (x y : Char) (hdx : isDigitC x = false)
    (hdy : isDigitC y = false) (hp : playChar2move x = playChar2move y) :
    ∀ (pre : List Char) (n : Nat) (post : List Char),
      (unRLEaux (pre ++ x :: post) n).filterMap playChar2move
        = (unRLEaux (pre ++ y :: post) n).filterMap playChar2move := by
  intro pre
  induction pre with
  | nil =>
    intro n post
    simp only [List.nil_append, unRLEaux, hdx, hdy, Bool.false_eq_true,
      if_false, List.filterMap_append]
    cases hc : playChar2move x with
    | none =>
      rw [filterMap_replicate_none playChar2move x hc,
        filterMap_replicate_none playChar2move y (hp ▸ hc)]
    | some m =>
      rw [filterMap_replicate_some playChar2move x m hc,
        filterMap_replicate_some playChar2move y m (hp ▸ hc)]
  | cons p pre ih =>
    intro n post
    simp only [List.cons_append]
    cases hpd : isDigitC p
    · rw [show unRLEaux (p :: (pre ++ x :: post)) n
          = List.replicate n p ++ unRLEaux (pre ++ x :: post) 1 from by
        simp [unRLEaux, hpd]]
      rw [show unRLEaux (p :: (pre ++ y :: post)) n
          = List.replicate n p ++ unRLEaux (pre ++ y :: post) 1 from by
        simp [unRLEaux, hpd]]
      rw [List.filterMap_append, List.filterMap_append, ih 1 post]
    · rw [show unRLEaux (p :: (pre ++ x :: post)) n
          = unRLEaux (pre ++ x :: post) (digitVal p) from by simp [unRLEaux, hpd]]
      rw [show unRLEaux (p :: (pre ++ y :: post)) n
          = unRLEaux (pre ++ y :: post) (digitVal p) from by simp [unRLEaux, hpd]]
      exact ih (digitVal p) post

/-- C7: direction symbols are case-insensitive in both validation and replay:
replacing any direction symbol of a solution string by its other-case
counterpart yields a string that validates identically and replays to the
same sequence of moves. -/
theorem direction_case_insensitive (pre post : List Char) (c : Char)
    (h : isDirC c = true) :
    isLegalSokoSolution (some (pre ++ caseSwapDir c :: post))
      = isLegalSokoSolution (some (pre ++ c :: post)) ∧
    replayMoves (pre ++ caseSwapDir c :: post) = replayMoves (pre ++ c :: post) := by
  obtain ⟨hdir, hdig, hplay⟩ := caseSwapDir_props c h
  constructor
  · have hlen : ∀ z : Char, ¬((pre ++ z :: post).length < 1) := by
      intro z
      simp [Nat.lt_one_iff]
    rw [show isLegalSokoSolution (some (pre ++ caseSwapDir c :: post))
        = isLegalAux (pre ++ caseSwapDir c :: post) from by
      simp [isLegalSokoSolution, hlen (caseSwapDir c)]]
    rw [show isLegalSokoSolution (some (pre ++ c :: post))
        = isLegalAux (pre ++ c :: post) from by
      simp [isLegalSokoSolution, hlen c]]
    exact isLegalAux_subst (caseSwapDir c) c hdir h pre post
  · exact replay_subst (caseSwapDir c) c hdig (isDirC_not_digit c h) hplay pre 1 post

theorem direction_case_insensitive_witness :
    isLegalSokoSolution (some ['U', 'r'])
      = isLegalSokoSolution (some ['u', 'r']) ∧
    replayMoves ['U', 'r'] = replayMoves ['u', 'r'] :=
  direction_case_insensitive [] ['r'] 'u' (by decide)

/-- The whitespace characters trimmed by `trimstr` in src/simplesok.c. -/
def isTrimWhitespace (c : Char) : Bool :=
  c == ' ' || c == '\t' || c == '\r' || c == '\n'

/-- `trimstr` from src/simplesok.c: truncates the string right after its last
non-whitespace character (the C loop finds the index of the last such
character and writes a terminator after it). -/
def trimstr (s : List Char) : List Char :=
  (s.reverse.dropWhile isTrimWhitespace).reverse

/-- The on-screen notices the Ctrl+V handler can show (`displaytexture`
calls in the handler of src/simplesok.c, `main`). -/
inductive UIMessage
  | playfromclipboard
deriving DecidableEq

/-- The replay-related mutable variables of the main loop touched by the
Ctrl+V handler: `playsolution` and `playsource`. -/
structure PlayState where
  playsolution : Nat
  playsource : Option (List Char)
deriving DecidableEq

/-- The KEY_CTRL_V handler of src/simplesok.c, `main`: reads the clipboard,
trims it, and only when `isLegalSokoSolution` accepts it reloads the level,
shows the play-from-clipboard notice and starts playback of the unRLE-decoded
string; otherwise it merely frees the clipboard text, leaving the play state
untouched and showing nothing. -/
def keyCtrlV (clipboard : Option (List Char)) (st : PlayState) :
    PlayState × Option UIMessage :=
  match clipboard with
  | none => (st, none)
  | some clip =>
    let sol := trimstr clip
    if isLegalSokoSolution (some sol) then
      ({ playsolution := 1, playsource := some (unRLE sol) },
        some UIMessage.playfromclipboard)
    else (st, none)

/-- C4 counterexample: the clipboard text "x" fails solution validation, yet
the Ctrl+V handler surfaces nothing: it shows no notice and leaves the play
state unchanged — the invalid paste is silently ignored. -/
theorem keyCtrlV_silently_ignores :
    isLegalSokoSolution (some (trimstr ['x'])) = false ∧
    keyCtrlV (some ['x']) ⟨0, none⟩ = (⟨0, none⟩, none) := by decide

/-- C4 (amended): the validation verdict gates the replay — a clipboard
string that fails validation is never used: the play state is left unchanged
and no notice is shown, so the failure is silently ignored rather than
surfaced; a string that passes validation starts playback of its
unRLE-decoded form with the play-from-clipboard notice. -/
theorem keyCtrlV_validation_gates (clip : List Char) (st : PlayState) :
    (isLegalSokoSolution (some (trimstr clip)) = false →
      keyCtrlV (some clip) st = (st, none)) ∧
    (isLegalSokoSolution (some (trimstr clip)) = true →
      keyCtrlV (some clip) st =
        ({ playsolution := 1, playsource := some (unRLE (trimstr clip)) },
          some UIMessage.playfromclipboard)) := by
  constructor
  · intro h
    simp [keyCtrlV, h]
  · intro h
    simp [keyCtrlV, h]

theorem keyCtrlV_validation_gates_witness :
    keyCtrlV (some ['x']) ⟨0, none⟩ = (⟨0, none⟩, none) :=
  (keyCtrlV_validation_gates ['x'] ⟨0, none⟩).1 (by decide)

/-- Modelled from the spec: sok_core.h is not under src/, so the cell bit
flags field_floor/field_goal/field_atom/field_wall are modelled after §3 of
the spec, which describes a cell as a bitset over {floor, wall, goal,
box(atom)}; each flag is an independent bit. -/
structure Cell where
  floor : Bool
  goal : Bool
  atom : Bool
  wall : Bool
deriving DecidableEq

/-- The §3 cell invariant: a cell is never simultaneously wall and
(floor or goal or box). -/
def cellInvariant (c : Cell) : Bool :=
  !(c.wall && (c.floor || c.goal || c.atom))

/-- The per-cell switch of `dumplevel2clipboard` (src/simplesok.c): the
switch scrutinee is `field[x][y] & ~field_floor`, i.e. the exact combination
of the wall/atom/goal bits with the floor bit masked away; the player
position only matters in the goal-only and default cases. -/
def dumpcellchar (cell : Cell) (isplayer : Bool) : Char :=
  match cell.wall, cell.atom, cell.goal with
  | true, false, false => '#'
  | false, true, true => '*'
  | false, true, false => '$'
  | false, false, true => if isplayer then '+' else '.'
  | _, _, _ => if isplayer then '@' else ' '

/-- The symbol table as worded by the claim: wall to '#', box-on-goal to '*',
box to '$', player-on-goal to '+', goal to '.', player on plain floor to '@',
any other cell to a blank. -/
def specCellChar (cell : Cell) (isplayer : Bool) : Char :=
  if cell.wall then '#'
  else if cell.atom && cell.goal then '*'
  else if cell.atom then '$'
  else if cell.goal && isplayer then '+'
  else if cell.goal then '.'
  else if isplayer && cell.floor then '@'
  else ' '

/-- The playfield part of `dumplevel2clipboard`: grid dimensions, the cell
bitmap, and the player position of a `struct sokgame`. -/
structure DumpGame where
  field_width : Nat
  field_height : Nat
  field : Nat → Nat → Cell
  positionx : Nat
  positiony : Nat

/-- The character emitted for coordinate (x, y), with the player test
`positionx == x && positiony == y` of the C code. -/
def dumpcellAt (g : DumpGame) (x y : Nat) : Char :=
  dumpcellchar (g.field x y) (g.positionx == x && g.positiony == y)

/-- One textual row of the grid dump. -/
def dumprow (g : DumpGame) (y : Nat) : List Char :=
  (List.range g.field_width).map (fun x => dumpcellAt g x y)

/-- The nested strcat loop of `dumplevel2clipboard`: for each row, append
every cell's character, then append a newline. -/
def dumpPlayfield (g : DumpGame) : List Char :=
  (List.range g.field_height).foldl
    (fun acc y =>
      ((List.range g.field_width).foldl (fun a x => a ++ [dumpcellAt g x y]) acc)
        ++ ['\n'])
    []

/-- Appending one element per list entry by a left fold is mapping. -/
lemma foldl_append_map {α β : Type} (f : α → β) :
    ∀ (l : List α) (acc : List β),
      l.foldl (fun a x => a ++ [f x]) acc = acc ++ l.map f := by
  intro l
  induction l with
  | nil => intro acc; simp
  | cons x xs ih => intro acc; simp [ih, List.append_assoc]

/-- The outer fold of the dump produces the newline-terminated rows in
order. -/
lemma dump_foldl_rows (g : DumpGame) :
    ∀ (ys : List Nat) (acc : List Char),
      ys.foldl
        (fun acc y =>
          ((List.range g.field_width).foldl
            (fun a x => a ++ [dumpcellAt g x y]) acc) ++ ['\n'])
        acc
      = acc ++ (ys.map (fun y => dumprow g y ++ ['\n'])).flatten := by
  intro ys
  induction ys with
  | nil => intro acc; simp
  | cons y ys ih =>
    intro acc
    rw [List.foldl_cons, ih]
    simp [foldl_append_map, dumprow, List.append_assoc]

/-- C6: the grid dump of `dumplevel2clipboard` maps each cell to exactly one
symbol of the level alphabet: under the §3 cell invariant, and with the
player standing on a floor cell, the emitted character is the one the claim's
table specifies; no emitted cell character is a newline, and the dump is one
newline-terminated row per grid line. -/
theorem dumplevel2clipboard_symbols :
    (∀ (cell : Cell) (isplayer : Bool),
      cellInvariant cell = true → (isplayer = true → cell.floor = true) →
      dumpcellchar cell isplayer = specCellChar cell isplayer) ∧
    (∀ (cell : Cell) (isplayer : Bool), dumpcellchar cell isplayer ≠ '\n') ∧
    (∀ g : DumpGame,
      dumpPlayfield g
        = ((List.range g.field_height).map (fun y => dumprow g y ++ ['\n'])).flatten) := by
  refine ⟨?_, ?_, ?_⟩
  · rintro ⟨f, gl, a, w⟩ p h1 h2
    revert h1 h2
    cases f <;> cases gl <;> cases a <;> cases w <;> cases p <;> decide
  · rintro ⟨f, gl, a, w⟩ p
    cases f <;> cases gl <;> cases a <;> cases w <;> cases p <;> decide
  · intro g
    simpa using dump_foldl_rows g (List.range g.field_height) []

theorem dumplevel2clipboard_symbols_witness :
    dumpcellchar ⟨false, false, false, true⟩ false
      = specCellChar ⟨false, false, false, true⟩ false ∧
    dumpcellchar ⟨true, true, false, false⟩ true
      = specCellChar ⟨true, true, false, false⟩ true :=
  ⟨dumplevel2clipboard_symbols.1 ⟨false, false, false, true⟩ false
      (by decide) (by decide),
   dumplevel2clipboard_symbols.1 ⟨true, true, false, false⟩ true
      (by decide) (by decide)⟩

/-- The coordinate displacement of a move direction (grid origin top-left,
y growing downwards). -/
def moveDelta : SOKMOVE → Int × Int
  | SOKMOVE.up => (0, -1)
  | SOKMOVE.right => (1, 0)
  | SOKMOVE.down => (0, 1)
  | SOKMOVE.left => (-1, 0)

/-- One step from a position in a direction. -/
def addpos (p : Int × Int) (d : SOKMOVE) : Int × Int :=
  (p.1 + (moveDelta d).1, p.2 + (moveDelta d).2)

/-- One step back from a position against a direction. -/
def subpos (p : Int × Int) (d : SOKMOVE) : Int × Int :=
  (p.1 - (moveDelta d).1, p.2 - (moveDelta d).2)

/-- Modelled from the spec: sok_core.h/sok_core.c are not under src/, so the
working `struct sokgame` is modelled after §3 of the spec: the working grid
(wall cells, goal cells and current box cells), the current player
coordinates, a move counter and a push counter. -/
structure SokGame where
  walls : List (Int × Int)
  goals : List (Int × Int)
  boxes : List (Int × Int)
  player : Int × Int
  movescount : Nat
  pushescount : Nat
deriving DecidableEq

/-- Modelled from the spec: `struct sokgamestates` is not under src/; per §3
it carries the History Ledger, an append-only sequence of executed moves.
Each entry records the direction and whether the move pushed a box, which
`undoLastMove` needs in order to reverse the move exactly (§4.2). -/
structure SokStates where
  history : List (SOKMOVE × Bool)
deriving DecidableEq

/-- An immutable parsed level: the initial snapshot the working copy is
cloned from. -/
structure Level where
  walls : List (Int × Int)
  goals : List (Int × Int)
  boxes : List (Int × Int)
  playerstart : Int × Int
deriving DecidableEq

/-- The working game cloned from a level: boxes and player at their initial
cells, both counters zero. -/
def initialGame (lvl : Level) : SokGame :=
  ⟨lvl.walls, lvl.goals, lvl.boxes, lvl.playerstart, 0, 0⟩

/-- The initial Puzzle State of a level: the initial working game and an
empty History Ledger. -/
def startState (lvl : Level) : SokGame × SokStates :=
  (initialGame lvl, ⟨[]⟩)

/-- Modelled from the spec: `sok_move` of sok_core.c (committed mode, as the
callers in src/simplesok.c use it) per §4.2: a wall target is blocked; a box
target requires the far cell free of wall and box and then moves the box and
the player and counts a push; a free target just moves the player; every
committed move increments the move counter and appends to the History
Ledger.  `none` is the blocked (illegal, no state change) outcome. -/
def sok_move (g : SokGame) (st : SokStates) (d : SOKMOVE) :
    Option (SokGame × SokStates) :=
  let target := addpos g.player d
  if target ∈ g.walls then none
  else if target ∈ g.boxes then
    let far := addpos target d
    if far ∈ g.walls ∨ far ∈ g.boxes then none
    else
      some ({ g with
                boxes := g.boxes.map (fun b => if b = target then far else b),
                player := target,
                movescount := g.movescount + 1,
                pushescount := g.pushescount + 1 },
            ⟨st.history ++ [(d, true)]⟩)
  else
    some ({ g with
              player := target,
              movescount := g.movescount + 1 },
          ⟨st.history ++ [(d, false)]⟩)

/-- Modelled from the spec: `sok_undo` of sok_core.c per §4.2: pops the most
recent History Ledger entry and reverses its effect exactly — the player
steps back against the recorded direction, a pushed box returns to the cell
the player now occupies, and the counters step back; a no-op when the ledger
is empty. -/
def sok_undo (g : SokGame) (st : SokStates) : SokGame × SokStates :=
  match st.history.getLast? with
  | none => (g, st)
  | some (d, wasPush) =>
    if wasPush then
      ({ g with
           boxes := g.boxes.map
             (fun b => if b = addpos g.player d then g.player else b),
           player := subpos g.player d,
           movescount := g.movescount - 1,
           pushescount := g.pushescount - 1 },
       ⟨st.history.dropLast⟩)
    else
      ({ g with
           player := subpos g.player d,
           movescount := g.movescount - 1 },
       ⟨st.history.dropLast⟩)

/-- Modelled from the spec: `sok_resetstates` of sok_core.c clears the
History Ledger (§4.2 reset discards all moves). -/
def sok_resetstates (_st : SokStates) : SokStates := ⟨[]⟩

/-- `loadlevel` from src/simplesok.c: the working game is overwritten by a
memcpy of the level snapshot and the states are reset. -/
def loadlevel (fromgame : SokGame) (st : SokStates) : SokGame × SokStates :=
  (fromgame, sok_resetstates st)

/-- Replays a list of directions through committed moves; `none` as soon as
one is blocked. -/
def applyMoves : SokGame × SokStates → List SOKMOVE → Option (SokGame × SokStates)
  | p, [] => some p
  | p, d :: ds =>
    match sok_move p.1 p.2 d with
    | none => none
    | some p1 => applyMoves p1 ds

/-- Applies `sok_undo` the given number of times. -/
def undoIter : Nat → SokGame × SokStates → SokGame × SokStates
  | 0, p => p
  | n + 1, p => sok_undo (undoIter n p).1 (undoIter n p).2

/-- Stepping back after stepping forward returns to the start cell. -/
lemma subpos_addpos (p : Int × Int) (d : SOKMOVE) : subpos (addpos p d) d = p := by
  cases d <;> simp [addpos, subpos, moveDelta]

/-- A move always changes the target cell. -/
lemma addpos_ne (p : Int × Int) (d : SOKMOVE) : addpos p d ≠ p := by
  cases d <;> simp [addpos, moveDelta, Prod.ext_iff]

/-- Moving a box from `target` to a cell `far` not occupied by any box, then
back, restores the box list. -/
lemma boxes_restore (boxes : List (Int × Int)) (target far : Int × Int)
    (hfar : far ∉ boxes) (hne : target ≠ far) :
    (boxes.map (fun b => if b = target then far else b)).map
      (fun b => if b = far then target else b) = boxes := by
  induction boxes with
  | nil => rfl
  | cons b bs ih =>
    rw [List.mem_cons, not_or] at hfar
    by_cases hb : b = target
    · subst hb
      simp [hne.symm, ih hfar.2]
    · simp [hb, hfar.1, Ne.symm hfar.1, ih hfar.2]

/-- Undo exactly reverses a committed move: for every legal committed move,
`sok_undo` on the resulting state returns the previous state, box included. -/
lemma sok_undo_sok_move (g : SokGame) (st : SokStates) (d : SOKMOVE)
    (p : SokGame × SokStates) (h : sok_move g st d = some p) :
    sok_undo p.1 p.2 = (g, st) := by
  by_cases h1 : addpos g.player d ∈ g.walls
  · simp [sok_move, h1] at h
  · by_cases h2 : addpos g.player d ∈ g.boxes
    · by_cases h3 : addpos (addpos g.player d) d ∈ g.walls ∨
          addpos (addpos g.player d) d ∈ g.boxes
      · simp [sok_move, h1, h2, h3] at h
      · rw [show p = ({ g with
              boxes := g.boxes.map
                (fun b => if b = addpos g.player d then addpos (addpos g.player d) d else b),
              player := addpos g.player d,
              movescount := g.movescount + 1,
              pushescount := g.pushescount + 1 },
            (⟨st.history ++ [(d, true)]⟩ : SokStates)) from by
          have := h
          simp only [sok_move, h1, h2, h3] at this
          simp at this
          exact this.symm]
        rw [not_or] at h3
        simp only [sok_undo, List.getLast?_concat, List.dropLast_concat, if_true]
        rw [boxes_restore g.boxes (addpos g.player d) (addpos (addpos g.player d) d)
          h3.2 (addpos_ne (addpos g.player d) d).symm]
        rw [subpos_addpos]
        simp
    · rw [show p = ({ g with
            player := addpos g.player d,
            movescount := g.movescount + 1 },
          (⟨st.history ++ [(d, false)]⟩ : SokStates)) from by
        have := h
        simp only [sok_move, h1, h2] at this
        simp at this
        exact this.symm]
      simp only [sok_undo, List.getLast?_concat, List.dropLast_concat]
      rw [subpos_addpos]
      simp

/-- Undoing as many times as there were moves returns any replay to its
starting state. -/
lemma undoIter_applyMoves :
    ∀ (ds : List SOKMOVE) (p q : SokGame × SokStates),
      applyMoves p ds = some q → undoIter ds.length q = p := by
  intro ds
  induction ds with
  | nil =>
    intro p q h
    simp [applyMoves] at h
    simp [undoIter, h]
  | cons d ds ih =>
    intro p q h
    simp only [applyMoves] at h
    cases hm : sok_move p.1 p.2 d with
    | none =>
      rw [hm] at h
      simp at h
    | some p1 =>
      rw [hm] at h
      simp only at h
      simp only [List.length_cons, undoIter, ih p1 q h]
      have := sok_undo_sok_move p.1 p.2 d p1 hm
      simpa using this

/-- The walls of the demonstration level `#####` / `#@$.#` / `#####`:
player at (1,1), box at (2,1), goal at (3,1). -/
def demoWalls : List (Int × Int) :=
  [(0, 0), (1, 0), (2, 0), (3, 0), (4, 0),
   (0, 1), (4, 1),
   (0, 2), (1, 2), (2, 2), (3, 2), (4, 2)]

/-- The demonstration level itself. -/
def demoLevel : Level := ⟨demoWalls, [(3, 1)], [(2, 1)], (1, 1)⟩

/-- The demonstration level after one committed push to the right: the box
reached the goal, the player stands where the box was, one move and one push
are counted, and the ledger holds the push. -/
def demoAfterPush : SokGame × SokStates :=
  (⟨demoWalls, [(3, 1)], [(3, 1)], (2, 1), 1, 1⟩, ⟨[(SOKMOVE.right, true)]⟩)

/-- C8: for every level and every sequence of N legal committed moves applied
from its initial state, N applications of sok_undo restore the Puzzle State
to bit-for-bit equality with the initial snapshot, pushed boxes included. -/
theorem sok_undo_inverse (lvl : Level) (ds : List SOKMOVE)
    (p : SokGame × SokStates) (h : applyMoves (startState lvl) ds = some p) :
    undoIter ds.length p = startState lvl :=
  undoIter_applyMoves ds (startState lvl) p h

theorem sok_undo_inverse_witness :
    undoIter 1 demoAfterPush = startState demoLevel :=
  sok_undo_inverse demoLevel [SOKMOVE.right] demoAfterPush (by decide)

/-- C5: restarting an in-progress game (the R key path calling loadlevel)
overwrites the working game with the level's initial snapshot — grid, player
position and counters byte for byte — and clears the History Ledger,
discarding all recorded moves. -/
theorem loadlevel_restores_initial (lvl : Level) (ds : List SOKMOVE)
    (p : SokGame × SokStates) (_h : applyMoves (startState lvl) ds = some p) :
    loadlevel (initialGame lvl) p.2 = startState lvl ∧
    (loadlevel (initialGame lvl) p.2).2.history = [] := by
  exact ⟨rfl, rfl⟩

theorem loadlevel_restores_initial_witness :
    loadlevel (initialGame demoLevel) demoAfterPush.2 = startState demoLevel ∧
    (loadlevel (initialGame demoLevel) demoAfterPush.2).2.history = [] :=
  loadlevel_restores_initial demoLevel [SOKMOVE.right] demoAfterPush (by decide)
